import Mathlib

/-!
Shallow embedding of the poll-bot registry (`src/main.py`) and its handlers.

Conventions of the embedding:
* Python `dict[str, Poll]` becomes an association list `List (String × Poll)`
  with pairwise-distinct keys (the well-formedness a `dict` guarantees);
  `dict.get` is `List.find?`, in-place assignment maps over the list.
* Python `set[int]` becomes a `List Int` with an insert-if-absent operation
  (`set.add` is idempotent), so the list stays duplicate-free.
* The wall clock `time()` becomes an explicit `now : Int` argument.
* Python list indexing `l[i]` (negative indices wrap, out-of-range raises
  `IndexError`) is modelled by `Option`-returning functions; a handler that
  would raise an uncaught exception returns `none`.
* Each `async with self.poll_lock:` block is one atomic action; code a
  handler runs between two such blocks can interleave with other tasks.
-/

namespace PollBot

/-- `scurrypy.EmojiModel`, as constructed in `src/main.py`: either a plain
emoji `EmojiModel(name)` or a custom one `EmojiModel(name, id, animated)`. -/
structure EmojiModel where
  name : String
  id : Option Int := none
  animated : Bool := false
deriving DecidableEq, Repr

/-- The `Poll` dataclass (src/main.py lines 34-43). `voted : set[int]` is a
duplicate-free list; `created_at`, `expires_after` are epoch seconds. -/
structure Poll where
  title : String
  created_by : Int
  created_at : Int
  expires_after : Int := 86400
  emojis : List EmojiModel := []
  options : List String := []
  votes : List Int := []
  voted : List Int := []
deriving DecidableEq, Repr

/-- `Poll.is_expired` (lines 45-46): `int(time()) > created_at + expires_after`,
with the clock made an explicit argument. -/
def Poll.is_expired (p : Poll) (now : Int) : Bool :=
  now > p.created_at + p.expires_after

/-- The `Poller.polls` dict: an association list keyed by poll id. -/
abbrev Registry := List (String × Poll)

/-- Keys of a registry. -/
def keys (r : Registry) : List String := r.map Prod.fst

/-- Well-formedness a Python `dict` guarantees: pairwise-distinct keys. -/
def WF (r : Registry) : Prop := (keys r).Nodup

/-- `Poller.get_poll` (lines 74-76): `self.polls.get(poll_id)`. -/
def get_poll (r : Registry) (id : String) : Option Poll :=
  (r.find? (fun kv => kv.1 == id)).map Prod.snd

/-- `Poller.add_poll` (lines 78-80): `self.polls[poll_id] = poll`; Python dict
assignment overwrites in place if the key exists, else appends. -/
def add_poll (r : Registry) (id : String) (p : Poll) : Registry :=
  if r.any (fun kv => kv.1 == id) then
    r.map (fun kv => if kv.1 == id then (id, p) else kv)
  else
    r ++ [(id, p)]

/-- `Poller.pop_poll` (lines 92-94): `self.polls.pop(poll_id, None)` returns
the stored poll (or `none`) and removes the key. -/
def pop_poll (r : Registry) (id : String) : Option Poll × Registry :=
  (get_poll r id, r.filter (fun kv => !(kv.1 == id)))

/-- One sweep of `Poller.cleanup_polls` (lines 68-71): under the lock, pop
every poll for which `is_expired()` holds. -/
def cleanup_polls (now : Int) (r : Registry) : Registry :=
  r.filter (fun kv => !(kv.2.is_expired now))

/-- Python `l[i] += 1` on a `list[int]`: a negative index wraps around once,
an index outside `[-len l, len l)` raises `IndexError` (modelled as `none`). -/
def pyIncAt (l : List Int) (i : Int) : Option (List Int) :=
  let n : Int := l.length
  let j : Int := if i < 0 then i + n else i
  if 0 ≤ j ∧ j < n then some (l.set j.toNat (l.getD j.toNat 0 + 1)) else none

/-- Python `set.add`: insert if absent (so the model list stays `Nodup`). -/
def setAdd (s : List Int) (x : Int) : List Int :=
  if x ∈ s then s else s ++ [x]

/-- The mutation `add_poll_vote` performs on the stored poll (lines 88-89):
`p.votes[vote] += 1; p.voted.add(voter_id)`.  The `votes[vote]` read happens
first, so an `IndexError` (`none`) leaves the poll unchanged. -/
def poll_vote_update (p : Poll) (voter : Int) (idx : Int) : Option Poll :=
  match pyIncAt p.votes idx with
  | none => none
  | some v => some { p with votes := v, voted := setAdd p.voted voter }

/-- Overwrite the poll stored under `id` (the effect of mutating the shared
`Poll` object held in the dict). -/
def set_poll (r : Registry) (id : String) (p : Poll) : Registry :=
  r.map (fun kv => if kv.1 == id then (id, p) else kv)

/-- `Poller.add_poll_vote` (lines 82-90), one atomic lock-protected section:
look the poll up; absent → `False`; otherwise increment `votes[vote]` and add
the voter, with no check of `voted`.  `none` models the uncaught `IndexError`
a bad index raises (in which case the registry is unchanged). -/
def add_poll_vote (r : Registry) (id : String) (voter : Int) (idx : Int) :
    Option (Bool × Registry) :=
  match get_poll r id with
  | none => some (false, r)
  | some p =>
    match poll_vote_update p voter idx with
    | none => none
    | some p2 => some (true, set_poll r id p2)

/-- Outcome the `on_poll_vote` handler reports to the user. -/
inductive VoteOutcome
  | accepted
  | notFound
  | alreadyVoted
deriving DecidableEq, Repr

/-- Result of the first atomic phase of `on_poll_vote` (lines 251-259): the
`get_poll` call plus the `voted` membership check the handler performs
*outside* any lock.  `finished o` means the handler replies `o` and returns;
`proceed` means it goes on to call `add_poll_vote`. -/
inductive Phase1
  | finished (o : VoteOutcome)
  | proceed
deriving DecidableEq, Repr

/-- First phase of `on_poll_vote` (lines 251-259): snapshot the poll, reply
not-found if absent, reply already-voted if the voter is in `voted`.  No
mutation happens here, and no lock is held after `get_poll` returns. -/
def vote_phase1 (r : Registry) (id : String) (voter : Int) : Phase1 :=
  match get_poll r id with
  | none => Phase1.finished VoteOutcome.notFound
  | some p =>
    if voter ∈ p.voted then Phase1.finished VoteOutcome.alreadyVoted
    else Phase1.proceed

/-- The whole `on_poll_vote` handler (lines 246-266) run without interleaving:
phase 1, then `add_poll_vote` (lines 261-263).  `none` models the handler
dying on an uncaught `IndexError`; a `False` from `add_poll_vote` is reported
to the user as the poll having expired, i.e. not-found. -/
def on_poll_vote (r : Registry) (id : String) (voter : Int) (idx : Int) :
    Option (VoteOutcome × Registry) :=
  match vote_phase1 r id voter with
  | Phase1.finished o => some (o, r)
  | Phase1.proceed =>
    match add_poll_vote r id voter idx with
    | none => none
    | some (b, r2) =>
      some ((if b then VoteOutcome.accepted else VoteOutcome.notFound), r2)

/-! ### Poll construction (`on_poll_init`, lines 149-214) and its helpers -/

/-- `DEFAULT_EMOJIS` (line 100). -/
def DEFAULT_EMOJIS : List String := ["🔴", "🟠", "🟡", "🟢", "🔵"]

/-- Python `\w` on the character classes these claims exercise
(`[A-Za-z0-9_]`; the full-Unicode word classes of `re` are not needed by any
label the source or the claims construct). -/
def isWordChar (c : Char) : Bool := c.isAlphanum || c == '_'

/-- Matcher for the tail `\w+:\d+>$` of `CUSTOM_EMOJI_REGEX`: a nonempty run
of word characters, a colon, a nonempty run of digits, then a closing `>` at
the end.  Greedy `takeWhile` is exact because `:` is not a word character and
`>` is not a digit. -/
def matchNameId (l : List Char) : Bool :=
  let w := l.takeWhile isWordChar
  let r := l.dropWhile isWordChar
  decide (w ≠ []) &&
    match r with
    | ':' :: r2 =>
      let d := r2.takeWhile Char.isDigit
      let r3 := r2.dropWhile Char.isDigit
      decide (d ≠ []) && decide (r3 = ['>'])
    | _ => false

/-- `CUSTOM_EMOJI_REGEX = re.compile(r'^<a?:\w+:\d+>$')` (line 99), applied
with `.match` anchored at both ends. -/
def matchCustomEmoji (s : String) : Bool :=
  match s.data with
  | '<' :: 'a' :: ':' :: rest => matchNameId rest
  | '<' :: ':' :: rest => matchNameId rest
  | _ => false

/-- Python `str.strip()`: remove leading and trailing whitespace. -/
def pyStrip (l : List Char) : List Char :=
  ((l.dropWhile Char.isWhitespace).reverse.dropWhile Char.isWhitespace).reverse

/-- Python `str.split(',')`: split on every comma; the empty string yields
`[""]`, and empty fields are kept. -/
def pySplitComma : List Char → List (List Char)
  | [] => [[]]
  | c :: rest =>
    if c = ',' then [] :: pySplitComma rest
    else
      match pySplitComma rest with
      | [] => [[c]]
      | g :: gs => (c :: g) :: gs

/-- `[i.strip() for i in s.split(',')[:k]]` as used at lines 156 and 173. -/
def splitStripTake (s : String) (k : Nat) : List String :=
  ((pySplitComma s.data).take k).map (fun g => String.mk (pyStrip g))

/-- Python `str.find(c, start)`: index of the first occurrence at or after
`start`, `-1` if none; a negative `start` counts from the end. -/
def py_find (s : List Char) (c : Char) (start : Int) : Int :=
  let n : Int := s.length
  let st : Int := if start < 0 then max (start + n) 0 else start
  match (s.drop st.toNat).findIdx? (fun x => x == c) with
  | some i => st + i
  | none => -1

/-- Python slice `s[i:j]`: negative bounds count from the end, both bounds
are clamped to `[0, len s]`. -/
def pySlice (l : List Char) (i j : Int) : List Char :=
  let n : Int := l.length
  let i2 : Int := if i < 0 then max (i + n) 0 else min i n
  let j2 : Int := if j < 0 then max (j + n) 0 else min j n
  (l.take j2.toNat).drop i2.toNat

/-- Value of a digit string, most significant first. -/
def digitsToNat (l : List Char) : Nat :=
  l.foldl (fun a c => a * 10 + (c.toNat - 48)) 0

/-- Python `int(str)` restricted to ASCII: optional surrounding whitespace,
optional sign, then a nonempty run of ASCII digits; anything else raises
`ValueError` (`none`).  (Unicode digits and `_` grouping, which no input of
interest contains, are omitted.) -/
def pyInt (l : List Char) : Option Int :=
  match pyStrip l with
  | [] => none
  | c :: rest =>
    if c = '+' then
      if rest ≠ [] ∧ rest.all Char.isDigit then some (digitsToNat rest : Int)
      else none
    else if c = '-' then
      if rest ≠ [] ∧ rest.all Char.isDigit then
        some (-(digitsToNat rest : Int))
      else none
    else if (c :: rest).all Char.isDigit then
      some (digitsToNat (c :: rest) : Int)
    else none

/-- Prefix test used by the substring check below. -/
def startsWithSeq : List Char → List Char → Bool
  | [], _ => true
  | _ :: _, [] => false
  | p :: ps, x :: xs => p == x && startsWithSeq ps xs

/-- Python `pat in s` on strings: `pat` occurs as a contiguous substring. -/
def containsSeq (pat : List Char) : List Char → Bool
  | [] => pat.isEmpty
  | x :: xs => startsWithSeq pat (x :: xs) || containsSeq pat xs

/-- `emoji_from_mention` (lines 102-113): slice the name out between the
first two colons, parse the trailing `id` with `int(...)` (a `ValueError`
returns `False`, modelled `none`), and flag animation by an `'a:'` infix. -/
def emoji_from_mention (s : String) : Option EmojiModel :=
  let cs := s.data
  let first_colon := py_find cs ':' 0
  let second_colon := py_find cs ':' (first_colon + 1)
  let name := String.mk (pySlice cs (first_colon + 1) second_colon)
  match pyInt (pySlice cs (second_colon + 1) (-1)) with
  | none => none
  | some id => some ⟨name, some id, containsSeq ['a', ':'] cs⟩

/-- The per-label branch of the emoji loop (lines 175-184): a label matching
`CUSTOM_EMOJI_REGEX` goes through `emoji_from_mention` (whose `False` aborts
the whole construction), any other label becomes a plain `EmojiModel(e)`. -/
def parse_label (e : String) : Option EmojiModel :=
  if matchCustomEmoji e then emoji_from_mention e
  else some ⟨e, none, false⟩

/-- `on_poll_init` (lines 149-196) up to the point the poll is built; `none`
is any of the early-return replies (no poll is stored on those paths).
Faithful details: the option string is split on `,`, truncated to 5, entries
stripped; fewer than 2 options is rejected; the emoji guard (line 166)
compares `len(emojis)` — the **string** length of the raw emoji option —
against the option count; the emoji string is split on `,` and truncated to
the option count; `expires-after` defaults to 25200. -/
def on_poll_init (title : String) (options_str : String)
    (expires_opt : Option Int) (emojis_opt : Option String)
    (created_by : Int) (now : Int) : Option Poll :=
  let expires_after := expires_opt.getD 25200
  let options := splitStripTake options_str 5
  let option_len := options.length
  if option_len < 2 then none
  else
    let emojis_str := emojis_opt.getD ""
    if emojis_str ≠ "" ∧ emojis_str.length < option_len then none
    else
      let emoji_list? : Option (List EmojiModel) :=
        if emojis_str ≠ "" then
          (splitStripTake emojis_str option_len).mapM parse_label
        else
          some ((DEFAULT_EMOJIS.take option_len).map
            (fun nm => ⟨nm, none, false⟩))
      match emoji_list? with
      | none => none
      | some emoji_list =>
        some { title := title, created_by := created_by, created_at := now,
               expires_after := expires_after, emojis := emoji_list,
               options := options,
               votes := List.replicate option_len 0, voted := [] }

/-- `cleanup_polls` sleeps this many seconds between sweeps (line 72). -/
def cleanup_sleep_seconds : Nat := 60

/-- What one `on_poll_vote` handler invocation looks like from outside:
either it reports an outcome, or it dies on an uncaught exception. -/
inductive HandlerOutcome
  | ok (o : VoteOutcome)
  | crashed
deriving DecidableEq, Repr

/-- A sequence of `on_poll_vote` invocations against one poll id, run one
after another (each handler runs to completion).  A crashed handler leaves
the registry unchanged: the `IndexError` is raised by the `votes[vote]` read,
before any mutation. -/
def run_votes (r : Registry) (id : String) :
    List (Int × Int) → List HandlerOutcome × Registry
  | [] => ([], r)
  | (voter, idx) :: rest =>
    match on_poll_vote r id voter idx with
    | none =>
      let (os, r') := run_votes r id rest
      (HandlerOutcome.crashed :: os, r')
    | some (o, r2) =>
      let (os, r') := run_votes r2 id rest
      (HandlerOutcome.ok o :: os, r')

/-- The registry operations a caller can issue after an `End` (everything
except creating a poll): a vote handler run, an `End` (`pop_poll`), a `Get`
(which does not mutate), or a reaper sweep. -/
inductive RegOp
  | voteOp (id : String) (voter : Int) (idx : Int)
  | endOp (id : String)
  | getOp (id : String)
  | sweepOp (now : Int)

/-- Effect of one such operation on the registry. -/
def applyOp (r : Registry) : RegOp → Registry
  | RegOp.voteOp id voter idx =>
    match on_poll_vote r id voter idx with
    | none => r
    | some (_, r2) => r2
  | RegOp.endOp id => (pop_poll r id).2
  | RegOp.getOp _ => r
  | RegOp.sweepOp now => cleanup_polls now r

/-- Effect of a sequence of operations. -/
def applyOps (r : Registry) (ops : List RegOp) : Registry :=
  ops.foldl applyOp r

/-- A concrete two-option poll used to instantiate the theorems below:
options `["A", "B"]`, default labels, no votes yet. -/
def samplePoll : Poll :=
  { title := "t", created_by := 1, created_at := 100,
    expires_after := 3600,
    emojis := [⟨"🔴", none, false⟩, ⟨"🟠", none, false⟩],
    options := ["A", "B"], votes := [0, 0], voted := [] }

/-- A one-poll registry holding `samplePoll` under id `"p"`. -/
def sampleReg : Registry := [("p", samplePoll)]

/-- Tally bookkeeping invariant of a poll: the vote counters sum to the
number of recorded voters, the voter set is duplicate-free, and every
counter is nonnegative. -/
def TallyInv (p : Poll) : Prop :=
  p.votes.sum = (p.voted.length : Int) ∧ p.voted.Nodup ∧ ∀ x ∈ p.votes, 0 ≤ x

/-! ### Helper lemmas about the registry -/

theorem get_poll_eq_none (r : Registry) (id : String) :
    get_poll r id = none ↔ id ∉ keys r := by
  unfold get_poll keys
  rw [Option.map_eq_none', List.find?_eq_none]
  constructor
  · intro h hmem
    rcases List.mem_map.1 hmem with ⟨kv, hkv, hfst⟩
    exact h kv hkv (by simp [hfst])
  · intro h kv hkv hbeq
    exact h (List.mem_map.2 ⟨kv, hkv, by simpa using hbeq⟩)

theorem find_set_of_mem (r : Registry) (id : String) (p : Poll)
    (h : r.any (fun kv => kv.1 == id) = true) :
    (r.map (fun kv => if kv.1 == id then (id, p) else kv)).find?
      (fun kv => kv.1 == id) = some (id, p) := by
  induction r with
  | nil => simp at h
  | cons kv rest ih =>
    by_cases hk : kv.1 = id
    · simp [hk]
    · have h' : rest.any (fun kv => kv.1 == id) = true := by
        simpa [hk] using h
      simpa [hk] using ih h'

/-- `set_poll` does not disturb lookups under a different key. -/
theorem get_set_other (r : Registry) (id : String) (p : Poll) (id' : String)
    (h : id' ≠ id) :
    get_poll (set_poll r id p) id' = get_poll r id' := by
  induction r with
  | nil => rfl
  | cons kv rest ih =>
    by_cases hk : kv.1 = id
    · have h1 : ¬(id == id') = true := by simpa using fun hh => h hh.symm
      have h2 : ¬(kv.1 == id') = true := by simp [hk]; exact fun hh => h hh.symm
      simp only [set_poll, List.map_cons] at ih ⊢
      simp only [get_poll, hk]
      simp only [List.find?_cons, beq_self_eq_true, if_true, h1, h2,
        if_false]
      exact ih
    · simp only [set_poll, List.map_cons] at ih ⊢
      have hk' : (kv.1 == id) = false := by simpa using hk
      simp only [get_poll, hk', Bool.false_eq_true, if_false,
        List.find?_cons]
      by_cases hm : (kv.1 == id') = true
      · simp [hm]
      · simp only [hm, if_false]
        exact ih

/-- The C10 statement, first half: a lookup right after `add_poll` returns
exactly the poll just stored (whether the key was fresh or overwritten). -/
theorem get_add_same (r : Registry) (id : String) (p : Poll) :
    get_poll (add_poll r id p) id = some p := by
  unfold add_poll
  by_cases h : r.any (fun kv => kv.1 == id) = true
  · rw [if_pos h]
    unfold get_poll
    rw [find_set_of_mem r id p h]
    rfl
  · rw [if_neg h]
    have hn : ∀ kv ∈ r, ¬(kv.1 == id) = true := by
      intro kv hkv
      by_contra hc
      exact h (List.any_eq_true.2 ⟨kv, hkv, by simpa using hc⟩)
    have hfind : r.find? (fun kv => kv.1 == id) = none :=
      List.find?_eq_none.2 hn
    unfold get_poll
    rw [List.find?_append, hfind]
    simp [List.find?_cons]

theorem get_add_other (r : Registry) (id : String) (p : Poll) (id' : String)
    (h : id' ≠ id) :
    get_poll (add_poll r id p) id' = get_poll r id' := by
  unfold add_poll
  by_cases hany : r.any (fun kv => kv.1 == id) = true
  · rw [if_pos hany]
    exact get_set_other r id p id' h
  · rw [if_neg hany]
    unfold get_poll
    rw [List.find?_append]
    by_cases hf : r.find? (fun kv => kv.1 == id') = none
    · rw [hf]
      have : ¬(id == id') = true := by simpa using fun hh => h hh.symm
      simp [List.find?_cons, this]
    · rcases Option.ne_none_iff_exists'.1 hf with ⟨kv, hkv⟩
      simp [hkv]

theorem keys_filter_subset (r : Registry) (f : String × Poll → Bool) :
    ∀ x, x ∈ keys (r.filter f) → x ∈ keys r := by
  intro x hx
  rcases List.mem_map.1 hx with ⟨kv, hkv, hfst⟩
  exact List.mem_map.2 ⟨kv, (List.mem_filter.1 hkv).1, hfst⟩

/-- Lookup in a filtered registry with distinct keys: the stored poll
survives iff the filter keeps it. -/
theorem get_poll_filter (r : Registry) (id : String)
    (f : String × Poll → Bool) (hWF : WF r) :
    get_poll (r.filter f) id =
      match get_poll r id with
      | some p => if f (id, p) then some p else none
      | none => none := by
  induction r with
  | nil => rfl
  | cons kv rest ih =>
    have hcons : kv.1 ∉ keys rest ∧ WF rest := by
      have h1 : (kv.1 :: keys rest).Nodup := by simpa [WF, keys] using hWF
      exact ⟨(List.nodup_cons.1 h1).1, (List.nodup_cons.1 h1).2⟩
    by_cases hk : kv.1 = id
    · by_cases hf : f kv = true
      · have hfid : f (id, kv.2) = true := by
          rw [← hk]; simpa using hf
        simp [List.filter_cons, hf, get_poll, List.find?_cons, hk, hfid]
      · have hfid : f (id, kv.2) = false := by
          rw [← hk]; simpa using Bool.eq_false_iff.2 hf
        have habs : id ∉ keys (rest.filter f) := by
          intro hx
          exact hcons.1 (hk ▸ keys_filter_subset rest f id hx)
        have hnone := (get_poll_eq_none (rest.filter f) id).2 habs
        simp [List.filter_cons, hf, hnone, get_poll, List.find?_cons, hk,
          hfid]
        simpa [get_poll] using hnone
    · have hk' : (kv.1 == id) = false := by simpa using hk
      by_cases hf : f kv = true
      · simpa [List.filter_cons, hf, get_poll, List.find?_cons, hk']
          using ih hcons.2
      · simpa [List.filter_cons, hf, get_poll, List.find?_cons, hk']
          using ih hcons.2

theorem get_pop_self (r : Registry) (id : String) :
    get_poll (pop_poll r id).2 id = none := by
  apply (get_poll_eq_none _ _).2
  intro hx
  rcases List.mem_map.1 hx with ⟨kv, hkv, hfst⟩
  have hkeep := (List.mem_filter.1 hkv).2
  rw [hfst] at hkeep
  simp at hkeep

theorem keys_set_poll (r : Registry) (id : String) (p : Poll) :
    keys (set_poll r id p) = keys r := by
  induction r with
  | nil => rfl
  | cons kv rest ih =>
    unfold keys set_poll at ih ⊢
    simp only [List.map_cons]
    by_cases hk : kv.1 = id
    · rw [ih]
      simp [hk]
    · have hk' : (kv.1 == id) = false := by simpa using hk
      rw [ih]
      simp [hk']

/-- A vote handler reports not-found and mutates nothing when the id is
absent. -/
theorem on_poll_vote_of_none (r : Registry) (id : String) (voter idx : Int)
    (h : get_poll r id = none) :
    on_poll_vote r id voter idx = some (VoteOutcome.notFound, r) := by
  unfold on_poll_vote vote_phase1
  rw [h]

/-- No registry operation other than poll creation can make an absent id
reappear. -/
theorem get_none_applyOp (r : Registry) (id : String) (op : RegOp)
    (h : get_poll r id = none) : get_poll (applyOp r op) id = none := by
  have hkey : id ∉ keys r := (get_poll_eq_none r id).1 h
  cases op with
  | voteOp id2 voter idx =>
    unfold applyOp on_poll_vote
    cases hp1 : vote_phase1 r id2 voter with
    | finished o =>
      simp only [hp1]
      exact h
    | proceed =>
      simp only [hp1]
      unfold add_poll_vote
      cases hg : get_poll r id2 with
      | none =>
        simp only [hg]
        exact h
      | some p =>
        simp only [hg]
        cases hu : poll_vote_update p voter idx with
        | none =>
          simp only [hu]
          exact h
        | some p2 =>
          simp only [hu]
          apply (get_poll_eq_none _ _).2
          rw [keys_set_poll]
          exact hkey
  | endOp id2 =>
    apply (get_poll_eq_none _ _).2
    intro hx
    exact hkey (keys_filter_subset r _ id hx)
  | getOp id2 => exact h
  | sweepOp now =>
    apply (get_poll_eq_none _ _).2
    intro hx
    exact hkey (keys_filter_subset r _ id hx)

theorem get_none_applyOps (r : Registry) (id : String) (ops : List RegOp)
    (h : get_poll r id = none) : get_poll (applyOps r ops) id = none := by
  induction ops generalizing r with
  | nil => exact h
  | cons op rest ih => exact ih (applyOp r op) (get_none_applyOp r id op h)

/-! ### Claim theorems -/

/-- C10: after `add_poll r id p`, looking `id` up returns exactly `p`; when
`id` was already present the old poll is silently replaced — the operation is
total, reports no collision, and leaves every other id's lookup unchanged. -/
theorem C10_add_poll_get_poll (r : Registry) (id : String) (p : Poll) :
    get_poll (add_poll r id p) id = some p ∧
    (∀ q, get_poll r id = some q → get_poll (add_poll r id p) id = some p) ∧
    (∀ id', id' ≠ id → get_poll (add_poll r id p) id' = get_poll r id') :=
  ⟨get_add_same r id p, fun _ _ => get_add_same r id p,
   fun id' h => get_add_other r id p id' h⟩

theorem C10_add_poll_get_poll_witness :
    get_poll (add_poll sampleReg "p" { samplePoll with title := "u" }) "p" =
      some { samplePoll with title := "u" } ∧
    get_poll (add_poll sampleReg "p" { samplePoll with title := "u" }) "q" =
      get_poll sampleReg "q" :=
  ⟨(C10_add_poll_get_poll sampleReg "p" _).1,
   (C10_add_poll_get_poll sampleReg "p" _).2.2 "q" (by decide)⟩

/-- C4: a poll is expired exactly when `now > createdAt + expiresAfter`;
after a reaper sweep at time `now`, a stored poll with
`createdAt + expiresAfter < now` is absent (Get returns `none` and Vote
reports not-found), and a poll with `createdAt + expiresAfter ≥ now` is not
removed. -/
theorem C4_expiry_correctness (r : Registry) (now : Int) (id : String)
    (p : Poll) (hWF : WF r) (hget : get_poll r id = some p) :
    (p.is_expired now = true ↔ p.created_at + p.expires_after < now) ∧
    (p.created_at + p.expires_after < now →
      get_poll (cleanup_polls now r) id = none ∧
      ∀ voter idx, on_poll_vote (cleanup_polls now r) id voter idx =
        some (VoteOutcome.notFound, cleanup_polls now r)) ∧
    (now ≤ p.created_at + p.expires_after →
      get_poll (cleanup_polls now r) id = some p) := by
  refine ⟨?_, ?_, ?_⟩
  · simp [Poll.is_expired]
  · intro hlt
    have hnone : get_poll (cleanup_polls now r) id = none := by
      unfold cleanup_polls
      rw [get_poll_filter r id _ hWF, hget]
      have hb : (!(Poll.is_expired p now)) = false := by
        simp [Poll.is_expired]
        omega
      simp [hb]
    exact ⟨hnone, fun voter idx =>
      on_poll_vote_of_none (cleanup_polls now r) id voter idx hnone⟩
  · intro hge
    unfold cleanup_polls
    rw [get_poll_filter r id _ hWF, hget]
    have hb : (!(Poll.is_expired p now)) = true := by
      simp [Poll.is_expired]
      omega
    simp [hb]

theorem C4_expiry_correctness_witness :
    get_poll (cleanup_polls 3701 sampleReg) "p" = none ∧
    get_poll (cleanup_polls 3700 sampleReg) "p" = some samplePoll := by
  refine ⟨?_, ?_⟩
  · exact ((C4_expiry_correctness sampleReg 3701 "p" samplePoll
      (by simp [WF, keys, sampleReg]) rfl).2.1 (by decide)).1
  · exact (C4_expiry_correctness sampleReg 3700 "p" samplePoll
      (by simp [WF, keys, sampleReg]) rfl).2.2 (by decide)

/-- C5: `pop_poll` removes the poll and hands back its final state; once
removed, any Get returns `none`, any Vote reports not-found, any further End
returns `none`, and the id stays absent across every further sequence of
Get/Vote/End/sweep operations. -/
theorem C5_end_atomic_visibility (r : Registry) (id : String) (p : Poll)
    (hget : get_poll r id = some p) :
    (pop_poll r id).1 = some p ∧
    get_poll (pop_poll r id).2 id = none ∧
    (∀ voter idx, on_poll_vote (pop_poll r id).2 id voter idx =
      some (VoteOutcome.notFound, (pop_poll r id).2)) ∧
    (pop_poll (pop_poll r id).2 id).1 = none ∧
    (∀ ops, get_poll (applyOps (pop_poll r id).2 ops) id = none) := by
  refine ⟨hget, get_pop_self r id, ?_, get_pop_self r id, ?_⟩
  · exact fun voter idx =>
      on_poll_vote_of_none _ id voter idx (get_pop_self r id)
  · exact fun ops => get_none_applyOps _ id ops (get_pop_self r id)

theorem C5_end_atomic_visibility_witness :
    (pop_poll sampleReg "p").1 = some samplePoll ∧
    get_poll (pop_poll sampleReg "p").2 "p" = none ∧
    get_poll (applyOps (pop_poll sampleReg "p").2
      [RegOp.voteOp "p" 7 0, RegOp.sweepOp 0, RegOp.endOp "p"]) "p" = none :=
  ⟨(C5_end_atomic_visibility sampleReg "p" samplePoll rfl).1,
   (C5_end_atomic_visibility sampleReg "p" samplePoll rfl).2.1,
   (C5_end_atomic_visibility sampleReg "p" samplePoll rfl).2.2.2.2
     [RegOp.voteOp "p" 7 0, RegOp.sweepOp 0, RegOp.endOp "p"]⟩

/-- With no emoji option supplied, construction succeeds whenever at least
two options survive the split, and uses the default label set. -/
theorem on_poll_init_no_emojis (title options_str : String) (eo : Option Int)
    (cb now : Int)
    (h : 2 ≤ (splitStripTake options_str 5).length) :
    on_poll_init title options_str eo none cb now =
      some { title := title, created_by := cb, created_at := now,
             expires_after := eo.getD 25200,
             emojis := (DEFAULT_EMOJIS.take
               (splitStripTake options_str 5).length).map
               (fun nm => ⟨nm, none, false⟩),
             options := splitStripTake options_str 5,
             votes := List.replicate
               (splitStripTake options_str 5).length 0,
             voted := [] } := by
  unfold on_poll_init
  rw [if_neg (by omega)]
  simp

/-- C7: construction truncates the comma-separated option list to its first
5 entries and then requires at least 2: an input with more than 5 options
yields a poll retaining exactly the first 5 (no error), and an input with
fewer than 2 options is rejected with no poll produced. -/
theorem C7_option_truncation (title options_str : String) (eo : Option Int)
    (cb now : Int) :
    ((splitStripTake options_str 5).length < 2 →
      on_poll_init title options_str eo none cb now = none) ∧
    (2 ≤ (splitStripTake options_str 5).length →
      ∃ p, on_poll_init title options_str eo none cb now = some p ∧
        p.options = splitStripTake options_str 5 ∧
        p.options.length ≤ 5) := by
  constructor
  · intro h
    unfold on_poll_init
    rw [if_pos h]
  · intro h
    refine ⟨_, on_poll_init_no_emojis title options_str eo cb now h, rfl, ?_⟩
    have : (splitStripTake options_str 5).length ≤ 5 := by
      unfold splitStripTake
      rw [List.length_map, List.length_take]
      exact Nat.min_le_left _ _
    exact this

theorem C7_option_truncation_witness :
    (∃ p, on_poll_init "t" "a,b,c,d,e,f" none none 1 0 = some p ∧
      p.options = ["a", "b", "c", "d", "e"] ∧ p.options.length ≤ 5) ∧
    on_poll_init "t" "lonely" none none 1 0 = none := by
  constructor
  · rcases (C7_option_truncation "t" "a,b,c,d,e,f" none 1 0).2 (by decide)
      with ⟨p, hp, hopts, hlen⟩
    exact ⟨p, hp, by rw [hopts]; decide, hlen⟩
  · exact (C7_option_truncation "t" "lonely" none 1 0).1 (by decide)

/-- C9: a poll created without an expires-after value is stored with
`expiresAfter = 25200` seconds, and the reaper sweeps every 60 seconds. -/
theorem C9_default_expiry (title options_str : String)
    (emojis_opt : Option String) (cb now : Int) (p : Poll)
    (h : on_poll_init title options_str none emojis_opt cb now = some p) :
    p.expires_after = 25200 ∧ cleanup_sleep_seconds = 60 := by
  refine ⟨?_, rfl⟩
  unfold on_poll_init at h
  simp only [Option.getD] at h
  split at h
  · exact absurd h (by simp)
  · split at h
    · exact absurd h (by simp)
    · split at h
      · exact absurd h (by simp)
      · cases h
        rfl

theorem C9_default_expiry_witness :
    ∃ p, on_poll_init "t" "A,B" none none 1 0 = some p ∧
      p.expires_after = 25200 ∧ cleanup_sleep_seconds = 60 :=
  ⟨_, on_poll_init_no_emojis "t" "A,B" none 1 0 (by decide),
   C9_default_expiry "t" "A,B" none 1 0 _
     (on_poll_init_no_emojis "t" "A,B" none 1 0 (by decide))⟩

/-- C1: the already-voted check and the vote increment are NOT one
indivisible unit.  `add_poll_vote` — the only lock-protected mutation —
performs no `voted` check at all, and the handler's check (`vote_phase1`)
runs outside the lock.  The conjuncts below spell out the interleaving
[A: phase 1, B: phase 1, A: commit, B: commit] of two handler tasks for the
same voter 7 on the same fresh poll: both phase-1 snapshots see the voter
absent from `voted` and proceed; both commits return `True`, so both tasks
report `accepted`, and the final tally is `[2, 0]` from a single voter.
(The second commit runs with voter 7 already in `voted` — third conjunct —
yet still increments.)  This contradicts the claim that at most one Vote by
the same voter can be accepted. -/
theorem C1_no_double_vote_code_bug :
    vote_phase1 sampleReg "p" 7 = Phase1.proceed ∧
    add_poll_vote sampleReg "p" 7 0 =
      some (true, [("p", { samplePoll with votes := [1, 0], voted := [7] })]) ∧
    (7 ∈ (Poll.voted { samplePoll with votes := [1, 0], voted := [7] })) ∧
    add_poll_vote [("p", { samplePoll with votes := [1, 0], voted := [7] })]
      "p" 7 0 =
      some (true,
        [("p", { samplePoll with votes := [2, 0], voted := [7] })]) :=
  ⟨rfl, rfl, by decide, rfl⟩

/-- C2: the option/label alignment invariant fails at construction.  The
guard at line 166 compares `len(emojis)` — the character length of the raw
emoji string — with the option count, not the number of supplied emojis:
with options `"aa,bb,cc"` (3 options) and emojis `"x,y"` (2 emojis, but 3
characters) construction succeeds and stores a poll with 2 labels against 3
options and 3 vote slots, although the code's own rejection message promises
"an emoji for every option". -/
theorem C2_alignment_code_bug :
    on_poll_init "t" "aa,bb,cc" none (some "x,y") 1 0 =
      some { title := "t", created_by := 1, created_at := 0,
             expires_after := 25200,
             emojis := [⟨"x", none, false⟩, ⟨"y", none, false⟩],
             options := ["aa", "bb", "cc"], votes := [0, 0, 0],
             voted := [] } ∧
    ([(⟨"x", none, false⟩ : EmojiModel), ⟨"y", none, false⟩].length = 2 ∧
      ["aa", "bb", "cc"].length = 3) :=
  ⟨by decide, by decide⟩

/-- C3 counterexample: no `InvalidVoteIndex` result exists.  On a two-option
poll, a Vote with index `2` (outside `[0, 2)`) makes the handler die on an
uncaught `IndexError` (`none`) instead of reporting a recoverable error, and
a Vote with index `-1` (also outside `[0, 2)`) is not rejected at all: it is
reported `accepted` and mutates the tally Python-wraparound style. -/
theorem C3_counterexample :
    on_poll_vote sampleReg "p" 7 2 = none ∧
    on_poll_vote sampleReg "p" 7 (-1) =
      some (VoteOutcome.accepted,
        [("p", { samplePoll with votes := [0, 1], voted := [7] })]) :=
  ⟨by decide, by decide⟩

/-- C3 as amended: the registry does not report a distinct recoverable
`InvalidVoteIndex`.  For a stored poll, an `optionIndex` outside
`[-len(votes), len(votes))` raises an uncaught `IndexError` in
`add_poll_vote` (no result value, registry untouched), and an `optionIndex`
in `[-len(votes), 0)` is accepted: it increments slot
`len(votes) + optionIndex` and records the voter. -/
theorem C3_amended_out_of_range (r : Registry) (id : String)
    (voter idx : Int) (p : Poll) (hget : get_poll r id = some p) :
    ((idx < -(p.votes.length : Int) ∨ (p.votes.length : Int) ≤ idx) →
      add_poll_vote r id voter idx = none) ∧
    ((-(p.votes.length : Int) ≤ idx ∧ idx < 0) →
      add_poll_vote r id voter idx =
        some (true, set_poll r id { p with
          votes := p.votes.set (idx + p.votes.length).toNat
            (p.votes.getD (idx + p.votes.length).toNat 0 + 1),
          voted := setAdd p.voted voter })) := by
  constructor
  · intro hout
    unfold add_poll_vote
    rw [hget]
    unfold poll_vote_update pyIncAt
    simp only []
    rw [if_neg (by split <;> omega)]
  · intro hin
    unfold add_poll_vote
    rw [hget]
    unfold poll_vote_update pyIncAt
    simp only []
    rw [if_pos (by rw [if_pos hin.2]; omega), if_pos hin.2]

theorem C3_amended_out_of_range_witness :
    add_poll_vote sampleReg "p" 7 2 = none ∧
    add_poll_vote sampleReg "p" 7 (-1) =
      some (true, set_poll sampleReg "p" { samplePoll with
        votes := samplePoll.votes.set ((-1 : Int) +
          samplePoll.votes.length).toNat
          (samplePoll.votes.getD ((-1 : Int) +
            samplePoll.votes.length).toNat 0 + 1),
        voted := setAdd samplePoll.voted 7 }) :=
  ⟨(C3_amended_out_of_range sampleReg "p" 7 2 samplePoll rfl).1
     (by decide),
   (C3_amended_out_of_range sampleReg "p" 7 (-1) samplePoll rfl).2
     (by decide)⟩

/-! ### Vote conservation (C6) -/

theorem sum_set_inc (l : List Int) (j : Nat) (h : j < l.length) :
    (l.set j (l.getD j 0 + 1)).sum = l.sum + 1 := by
  induction l generalizing j with
  | nil => simp at h
  | cons x xs ih =>
    cases j with
    | zero =>
      simp [List.sum_cons]
      ring
    | succ k =>
      have hk : k < xs.length := by simpa using h
      simp only [List.set_cons_succ, List.getD_cons_succ, List.sum_cons]
      rw [ih k hk]
      ring

theorem nonneg_set_inc (l : List Int) (j : Nat) (h : j < l.length)
    (hn : ∀ x ∈ l, 0 ≤ x) : ∀ x ∈ l.set j (l.getD j 0 + 1), 0 ≤ x := by
  intro x hx
  rcases List.mem_or_eq_of_mem_set hx with hm | he
  · exact hn x hm
  · have hmem : l.getD j 0 ∈ l := by
      rw [List.getD_eq_getElem l 0 h]
      exact List.getElem_mem h
    have := hn _ hmem
    omega

theorem pyIncAt_spec (l : List Int) (i : Int) (v : List Int)
    (h : pyIncAt l i = some v) :
    v.sum = l.sum + 1 ∧ v.length = l.length ∧
      ((∀ x ∈ l, 0 ≤ x) → ∀ x ∈ v, 0 ≤ x) := by
  unfold pyIncAt at h
  simp only [] at h
  by_cases hi : i < 0
  · rw [if_pos hi] at h
    by_cases hc : 0 ≤ i + (l.length : Int) ∧ i + (l.length : Int) < (l.length : Int)
    · rw [if_pos hc] at h
      have hv := (Option.some.inj h).symm
      subst hv
      have hjl : (i + (l.length : Int)).toNat < l.length := by omega
      exact ⟨sum_set_inc l _ hjl, by simp,
        fun hn => nonneg_set_inc l _ hjl hn⟩
    · rw [if_neg hc] at h
      simp at h
  · rw [if_neg hi] at h
    by_cases hc : 0 ≤ i ∧ i < (l.length : Int)
    · rw [if_pos hc] at h
      have hv := (Option.some.inj h).symm
      subst hv
      have hjl : i.toNat < l.length := by omega
      exact ⟨sum_set_inc l _ hjl, by simp,
        fun hn => nonneg_set_inc l _ hjl hn⟩
    · rw [if_neg hc] at h
      simp at h

theorem setAdd_length_of_not_mem (s : List Int) (x : Int) (h : x ∉ s) :
    (setAdd s x).length = s.length + 1 := by
  simp [setAdd, h]

theorem setAdd_nodup (s : List Int) (x : Int) (h : s.Nodup) :
    (setAdd s x).Nodup := by
  unfold setAdd
  split
  · exact h
  · rename_i hx
    rw [List.nodup_append]
    refine ⟨h, List.nodup_singleton x, ?_⟩
    intro a ha hax
    rw [List.mem_singleton] at hax
    subst hax
    exact hx ha

theorem get_poll_singleton (pid : String) (p : Poll) :
    get_poll [(pid, p)] pid = some p := by
  simp [get_poll, List.find?_cons]

theorem set_poll_singleton (pid : String) (p q : Poll) :
    set_poll [(pid, p)] pid q = [(pid, q)] := by
  simp [set_poll]

theorem vote_phase1_mem (pid : String) (p : Poll) (voter : Int)
    (hv : voter ∈ p.voted) :
    vote_phase1 [(pid, p)] pid voter =
      Phase1.finished VoteOutcome.alreadyVoted := by
  unfold vote_phase1
  rw [get_poll_singleton]
  exact if_pos hv

theorem vote_phase1_not_mem (pid : String) (p : Poll) (voter : Int)
    (hv : voter ∉ p.voted) :
    vote_phase1 [(pid, p)] pid voter = Phase1.proceed := by
  unfold vote_phase1
  rw [get_poll_singleton]
  exact if_neg hv

theorem on_poll_vote_eq_already (pid : String) (p : Poll) (voter idx : Int)
    (hv : voter ∈ p.voted) :
    on_poll_vote [(pid, p)] pid voter idx =
      some (VoteOutcome.alreadyVoted, [(pid, p)]) := by
  unfold on_poll_vote
  rw [vote_phase1_mem pid p voter hv]

theorem on_poll_vote_eq_proceed (pid : String) (p : Poll) (voter idx : Int)
    (hv : voter ∉ p.voted) :
    on_poll_vote [(pid, p)] pid voter idx =
      match poll_vote_update p voter idx with
      | none => none
      | some p2 => some (VoteOutcome.accepted, [(pid, p2)]) := by
  unfold on_poll_vote
  rw [vote_phase1_not_mem pid p voter hv]
  dsimp only
  unfold add_poll_vote
  rw [get_poll_singleton]
  dsimp only
  cases poll_vote_update p voter idx with
  | none => rfl
  | some p2 =>
    simp [set_poll_singleton]

/-- One sequential `on_poll_vote` on a single-poll registry: the registry
stays a single entry under the same id, the tally invariant is preserved,
and the vote sum grows by one exactly on an accepted outcome. -/
theorem on_poll_vote_step (pid : String) (p : Poll) (voter idx : Int)
    (o : VoteOutcome) (r2 : Registry)
    (h : on_poll_vote [(pid, p)] pid voter idx = some (o, r2)) :
    ∃ p2, r2 = [(pid, p2)] ∧
      (TallyInv p → TallyInv p2 ∧
        p2.votes.sum = p.votes.sum +
          (if o = VoteOutcome.accepted then 1 else 0)) := by
  by_cases hv : voter ∈ p.voted
  · rw [on_poll_vote_eq_already pid p voter idx hv] at h
    cases h
    exact ⟨p, rfl, fun hI => ⟨hI, by simp⟩⟩
  · rw [on_poll_vote_eq_proceed pid p voter idx hv] at h
    cases hu : poll_vote_update p voter idx with
    | none =>
      rw [hu] at h
      cases h
    | some p2 =>
      rw [hu] at h
      cases h
      refine ⟨p2, rfl, fun hI => ?_⟩
      unfold poll_vote_update at hu
      cases hinc : pyIncAt p.votes idx with
      | none =>
        rw [hinc] at hu
        cases hu
      | some v =>
        rw [hinc] at hu
        cases hu
        obtain ⟨hsum, _hlen, hnn⟩ := pyIncAt_spec p.votes idx v hinc
        obtain ⟨hIsum, hInodup, hInn⟩ := hI
        refine ⟨⟨?_, setAdd_nodup _ _ hInodup, fun x hx => hnn hInn x hx⟩, ?_⟩
        · show v.sum = ((setAdd p.voted voter).length : Int)
          rw [hsum, hIsum, setAdd_length_of_not_mem _ _ hv]
          push_cast
          ring
        · show v.sum = p.votes.sum + 1
          simpa using hsum

/-- Running a sequence of vote handlers on a single-poll registry keeps one
entry, preserves the tally invariant, and grows the vote sum by exactly the
number of accepted outcomes. -/
theorem run_votes_inv (pid : String) (seq : List (Int × Int)) (p : Poll)
    (hI : TallyInv p) :
    ∃ p2, (run_votes [(pid, p)] pid seq).2 = [(pid, p2)] ∧ TallyInv p2 ∧
      p2.votes.sum = p.votes.sum +
        ((run_votes [(pid, p)] pid seq).1.count
          (HandlerOutcome.ok VoteOutcome.accepted) : Int) := by
  induction seq generalizing p with
  | nil => exact ⟨p, rfl, hI, by simp [run_votes]⟩
  | cons hd rest ih =>
    obtain ⟨voter, idx⟩ := hd
    cases hv : on_poll_vote [(pid, p)] pid voter idx with
    | none =>
      obtain ⟨p2, h1, h2, h3⟩ := ih p hI
      rcases hrun : run_votes [(pid, p)] pid rest with ⟨os, r2⟩
      rw [hrun] at h1 h3
      simp only [] at h1 h3
      refine ⟨p2, ?_, h2, ?_⟩
      · simp [run_votes, hv, hrun, h1]
      · simp only [run_votes, hv, hrun]
        have hcount : List.count (HandlerOutcome.ok VoteOutcome.accepted)
            (HandlerOutcome.crashed :: os) =
            List.count (HandlerOutcome.ok VoteOutcome.accepted) os := by
          simp [List.count_cons]
        rw [hcount]
        exact h3
    | some or2 =>
      obtain ⟨o, r2⟩ := or2
      obtain ⟨p2, hre, hstep⟩ := on_poll_vote_step pid p voter idx o r2 hv
      obtain ⟨hI2, hsum2⟩ := hstep hI
      subst hre
      obtain ⟨p3, h1, h2, h3⟩ := ih p2 hI2
      rcases hrun : run_votes [(pid, p2)] pid rest with ⟨os, r3⟩
      rw [hrun] at h1 h3
      simp only [] at h1 h3
      refine ⟨p3, ?_, h2, ?_⟩
      · simp [run_votes, hv, hrun, h1]
      · simp only [run_votes, hv, hrun]
        by_cases ho : o = VoteOutcome.accepted
        · subst ho
          rw [if_pos rfl] at hsum2
          have hcount : List.count (HandlerOutcome.ok VoteOutcome.accepted)
              (HandlerOutcome.ok VoteOutcome.accepted :: os) =
              List.count (HandlerOutcome.ok VoteOutcome.accepted) os + 1 := by
            simp [List.count_cons]
          rw [hcount, h3, hsum2]
          push_cast
          ring
        · rw [if_neg ho] at hsum2
          have hbeq : (HandlerOutcome.ok o == HandlerOutcome.ok
              VoteOutcome.accepted) = false := by
            cases o <;> simp_all
          have hcount : List.count (HandlerOutcome.ok VoteOutcome.accepted)
              (HandlerOutcome.ok o :: os) =
              List.count (HandlerOutcome.ok VoteOutcome.accepted) os := by
            simp [List.count_cons, hbeq]
          rw [hcount, h3, hsum2]
          ring

/-- C6: starting from a fresh poll (all counters 0, nobody has voted), after
any sequence of vote-handler calls the vote counters sum to the number of
accepted votes, the voter set has exactly that many entries (each accepted
vote comes from a distinct new voter), and every counter is nonnegative —
so the sum of `votes` never exceeds the number of distinct voters ever
accepted. -/
theorem C6_vote_conservation (pid : String) (n : Nat) (p0 : Poll)
    (seq : List (Int × Int)) (h1 : p0.votes = List.replicate n 0)
    (h2 : p0.voted = []) :
    ∃ p2, (run_votes [(pid, p0)] pid seq).2 = [(pid, p2)] ∧
      p2.votes.sum = ((run_votes [(pid, p0)] pid seq).1.count
        (HandlerOutcome.ok VoteOutcome.accepted) : Int) ∧
      (p2.voted.length : Int) = ((run_votes [(pid, p0)] pid seq).1.count
        (HandlerOutcome.ok VoteOutcome.accepted) : Int) ∧
      ∀ x ∈ p2.votes, 0 ≤ x := by
  have hz : p0.votes.sum = 0 := by
    rw [h1]
    simp
  have hI : TallyInv p0 := by
    refine ⟨?_, ?_, ?_⟩
    · rw [hz, h2]
      simp
    · rw [h2]
      exact List.nodup_nil
    · rw [h1]
      intro x hx
      have := List.eq_of_mem_replicate hx
      omega
  obtain ⟨p2, ha, hb, hc⟩ := run_votes_inv pid seq p0 hI
  rw [hz] at hc
  simp only [zero_add] at hc
  exact ⟨p2, ha, hc, by rw [← hb.1, hc], hb.2.2⟩

theorem C6_vote_conservation_witness :
    ∃ p2, (run_votes [("p", samplePoll)] "p" [(7, 0), (7, 1), (8, 1)]).2 =
        [("p", p2)] ∧
      p2.votes.sum = ((run_votes [("p", samplePoll)] "p"
        [(7, 0), (7, 1), (8, 1)]).1.count
          (HandlerOutcome.ok VoteOutcome.accepted) : Int) ∧
      (p2.voted.length : Int) = ((run_votes [("p", samplePoll)] "p"
        [(7, 0), (7, 1), (8, 1)]).1.count
          (HandlerOutcome.ok VoteOutcome.accepted) : Int) ∧
      ∀ x ∈ p2.votes, 0 ≤ x :=
  C6_vote_conservation "p" 2 samplePoll [(7, 0), (7, 1), (8, 1)]
    (by decide) (by decide)

/-! ### Label syntax (C8) -/

theorem dropWhile_eq_self_of_forall (p : Char → Bool) (l : List Char)
    (h : ∀ c ∈ l, p c = false) : l.dropWhile p = l := by
  cases l with
  | nil => rfl
  | cons x xs =>
    have hx : p x = false := h x (List.mem_cons_self x xs)
    simp [List.dropWhile_cons, hx]

theorem digit_not_ws (c : Char) (h : c.isDigit = true) :
    c.isWhitespace = false := by
  by_cases h1 : c = ' '
  · exact absurd (h1 ▸ h) (by decide)
  by_cases h2 : c = '\t'
  · exact absurd (h2 ▸ h) (by decide)
  by_cases h3 : c = '\r'
  · exact absurd (h3 ▸ h) (by decide)
  by_cases h4 : c = '\n'
  · exact absurd (h4 ▸ h) (by decide)
  simp [Char.isWhitespace, h1, h2, h3, h4]

theorem pyStrip_digits (d : List Char) (hd : ∀ c ∈ d, c.isDigit = true) :
    pyStrip d = d := by
  have hws : ∀ c ∈ d, c.isWhitespace = false :=
    fun c hc => digit_not_ws c (hd c hc)
  unfold pyStrip
  rw [dropWhile_eq_self_of_forall _ _ hws,
    dropWhile_eq_self_of_forall _ _
      (fun c hc => hws c (List.mem_reverse.1 hc)),
    List.reverse_reverse]

theorem pyInt_digits (d : List Char) (hne : d ≠ [])
    (hd : ∀ c ∈ d, c.isDigit = true) : (pyInt d).isSome = true := by
  unfold pyInt
  rw [pyStrip_digits d hd]
  cases d with
  | nil => exact absurd rfl hne
  | cons c rest =>
    have hc : c.isDigit = true := hd c (List.mem_cons_self c rest)
    have hplus : ¬c = '+' := by
      intro he
      exact absurd (he ▸ hc) (by decide)
    have hminus : ¬c = '-' := by
      intro he
      exact absurd (he ▸ hc) (by decide)
    have hall : (c :: rest).all Char.isDigit = true := by
      rw [List.all_eq_true]
      exact hd
    simp [hplus, hminus, hall]

theorem findIdx_append_cons (a : List Char) (c : Char) (b : List Char)
    (i : Nat) (h : ∀ x ∈ a, (x == c) = false) :
    List.findIdx? (fun x => x == c) (a ++ c :: b) i =
      some (a.length + i) := by
  induction a generalizing i with
  | nil => simp [List.findIdx?_cons]
  | cons x xs ih =>
    have hx : (x == c) = false := h x (List.mem_cons_self x xs)
    rw [List.cons_append, List.findIdx?_cons, if_neg (by simp [hx]),
      ih (i + 1) (fun y hy => h y (List.mem_cons_of_mem x hy))]
    congr 1
    simp only [List.length_cons]
    omega

theorem py_find_from (s : List Char) (c : Char) (st : Int) (a b : List Char)
    (hst : 0 ≤ st) (hdrop : s.drop st.toNat = a ++ c :: b)
    (h : ∀ x ∈ a, (x == c) = false) :
    py_find s c st = st + a.length := by
  unfold py_find
  simp only []
  rw [if_neg (by omega), hdrop, findIdx_append_cons a c b 0 h]
  simp

theorem pySlice_last_segment (A d : List Char) (g : Char) :
    pySlice (A ++ (d ++ [g])) (A.length : Int) (-1) = d := by
  unfold pySlice
  simp only []
  rw [if_neg (by omega), if_pos (by omega)]
  have hlen : (((A ++ (d ++ [g])).length : Nat) : Int) =
      (A.length : Int) + d.length + 1 := by
    push_cast [List.length_append, List.length_singleton]
    ring
  have hi2 : (min (A.length : Int)
      (((A ++ (d ++ [g])).length : Nat) : Int)).toNat = A.length := by
    rw [hlen]
    omega
  have hj2 : (max ((-1) + (((A ++ (d ++ [g])).length : Nat) : Int))
      0).toNat = A.length + d.length := by
    rw [hlen]
    omega
  rw [hi2, hj2, ← List.append_assoc]
  have hl : A.length + d.length = (A ++ d).length :=
    (List.length_append A d).symm
  rw [hl, List.take_left, List.drop_left]

/-- A successful `matchNameId` splits its input as `\\w+ : \\d+ >`. -/
theorem matchNameId_decomp (l : List Char) (h : matchNameId l = true) :
    ∃ w d, l = w ++ ':' :: (d ++ ['>']) ∧ w ≠ [] ∧
      (∀ c ∈ w, isWordChar c = true) ∧ d ≠ [] ∧
      (∀ c ∈ d, c.isDigit = true) := by
  unfold matchNameId at h
  simp only [] at h
  rw [Bool.and_eq_true] at h
  obtain ⟨hw, hrest⟩ := h
  have hwne : l.takeWhile isWordChar ≠ [] := of_decide_eq_true hw
  split at hrest
  · rename_i r2 heq
    rw [Bool.and_eq_true] at hrest
    obtain ⟨hd1, hd2⟩ := hrest
    have hdne : r2.takeWhile Char.isDigit ≠ [] := of_decide_eq_true hd1
    have hr3 : r2.dropWhile Char.isDigit = ['>'] := of_decide_eq_true hd2
    refine ⟨l.takeWhile isWordChar, r2.takeWhile Char.isDigit, ?_, hwne,
      fun c hc => List.mem_takeWhile_imp hc, hdne,
      fun c hc => List.mem_takeWhile_imp hc⟩
    calc l = l.takeWhile isWordChar ++ l.dropWhile isWordChar :=
          (List.takeWhile_append_dropWhile isWordChar l).symm
    _ = l.takeWhile isWordChar ++ (':' :: r2) := by rw [heq]
    _ = l.takeWhile isWordChar ++ (':' ::
          (r2.takeWhile Char.isDigit ++ r2.dropWhile Char.isDigit)) := by
        rw [List.takeWhile_append_dropWhile]
    _ = l.takeWhile isWordChar ++ ':' ::
          (r2.takeWhile Char.isDigit ++ ['>']) := by rw [hr3]
  · simp at hrest

/-- Core of the C8 amendment: on any string of the matched shape,
`emoji_from_mention` succeeds (the numeric-id parse cannot fail). -/
theorem efm_shape (s : String) (pre w d : List Char)
    (hcs : s.data = '<' :: (pre ++ ':' :: (w ++ ':' :: (d ++ ['>']))))
    (hpre : ∀ x ∈ pre, (x == ':') = false)
    (hw : ∀ c ∈ w, isWordChar c = true) (hdne : d ≠ [])
    (hd : ∀ c ∈ d, c.isDigit = true) :
    (emoji_from_mention s).isSome = true := by
  have hwc : ∀ x ∈ w, (x == ':') = false := by
    intro x hx
    by_cases hxe : x = ':'
    · subst hxe
      exact absurd (hw _ hx) (by decide)
    · simpa using hxe
  have hpre1 : ∀ x ∈ '<' :: pre, (x == ':') = false := by
    intro x hx
    rcases List.mem_cons.1 hx with he | hm
    · subst he
      decide
    · exact hpre x hm
  have h1 := py_find_from ('<' :: (pre ++ ':' :: (w ++ ':' :: (d ++ ['>']))))
    ':' 0 ('<' :: pre) (w ++ ':' :: (d ++ ['>']))
    (by omega) (by simp) hpre1
  have h1' : py_find ('<' :: (pre ++ ':' :: (w ++ ':' :: (d ++ ['>'])))) ':' 0
      = (pre.length : Int) + 1 := by
    rw [h1]
    push_cast [List.length_cons]
    ring
  have hdrop2 : List.drop (((pre.length : Int) + 1 + 1).toNat)
      ('<' :: (pre ++ ':' :: (w ++ ':' :: (d ++ ['>']))))
      = w ++ ':' :: (d ++ ['>']) := by
    have ht : ((pre.length : Int) + 1 + 1).toNat = pre.length + 2 := by
      omega
    have hsp : '<' :: (pre ++ ':' :: (w ++ ':' :: (d ++ ['>'])))
        = (('<' :: pre) ++ [':']) ++ (w ++ ':' :: (d ++ ['>'])) := by simp
    have hln : (('<' :: pre) ++ [':']).length = pre.length + 2 := by simp
    rw [ht, hsp, ← hln, List.drop_left]
  have h2 := py_find_from ('<' :: (pre ++ ':' :: (w ++ ':' :: (d ++ ['>']))))
    ':' ((pre.length : Int) + 1 + 1) w (d ++ ['>'])
    (by omega) hdrop2 hwc
  have hslice : pySlice ('<' :: (pre ++ ':' :: (w ++ ':' :: (d ++ ['>']))))
      ((pre.length : Int) + 1 + 1 + (w.length : Int) + 1) (-1) = d := by
    have hsplit3 : '<' :: (pre ++ ':' :: (w ++ ':' :: (d ++ ['>'])))
        = ('<' :: (pre ++ ':' :: (w ++ [':']))) ++ (d ++ ['>']) := by simp
    have hAlen : (((('<' :: (pre ++ ':' :: (w ++ [':'])))).length : Nat) : Int)
        = (pre.length : Int) + 1 + 1 + (w.length : Int) + 1 := by
      push_cast [List.length_cons, List.length_append, List.length_singleton,
        List.length_nil]
      ring
    rw [show ((pre.length : Int) + 1 + 1 + (w.length : Int) + 1)
        = (((('<' :: (pre ++ ':' :: (w ++ [':'])))).length : Nat) : Int)
        from hAlen.symm, hsplit3]
    exact pySlice_last_segment _ d '>'
  unfold emoji_from_mention
  simp only []
  rw [hcs, h1', h2, hslice]
  obtain ⟨v, hv⟩ := Option.isSome_iff_exists.1 (pyInt_digits d hdne hd)
  rw [hv]
  rfl

/-- C8 counterexample: a malformed rich-marker-like label does NOT cause the
construction to be rejected.  `"<a:x:yz>"` has the shape of a rich marker but
fails the strict syntax (its id `yz` is not numeric); the code accepts it
verbatim as a plain label and stores the poll, where the claim demands an
all-or-nothing rejection. -/
theorem C8_counterexample :
    on_poll_init "t" "aa,bb" none (some "x,<a:x:yz>") 1 0 =
      some { title := "t", created_by := 1, created_at := 0,
             expires_after := 25200,
             emojis := [⟨"x", none, false⟩, ⟨"<a:x:yz>", none, false⟩],
             options := ["aa", "bb"], votes := [0, 0], voted := [] } := by
  decide

/-- C8 as amended: a supplied label is parsed as a rich marker only when it
matches the full strict syntax `<a?:\\w+:\\d+>`, and for such labels the parse
never fails; every other label — malformed-looking rich markers included —
is accepted verbatim as a plain marker.  Hence label processing never
rejects a construction (the malformed-marker rejection branch at lines
178-180 is unreachable), and `(parse_label e).isSome` holds for every label. -/
theorem C8_amended_label_parsing (e : String) :
    (parse_label e).isSome = true ∧
    (matchCustomEmoji e = false →
      parse_label e = some ⟨e, none, false⟩) := by
  by_cases hm : matchCustomEmoji e = true
  · refine ⟨?_, fun hf => absurd hm (by rw [hf]; simp)⟩
    unfold parse_label
    rw [if_pos hm]
    unfold matchCustomEmoji at hm
    split at hm
    · rename_i rest heq
      obtain ⟨w, d, hrest, _hwne, hw, hdne, hd⟩ := matchNameId_decomp rest hm
      exact efm_shape e ['a'] w d (by rw [heq, hrest]; rfl) (by decide)
        hw hdne hd
    · rename_i rest heq
      obtain ⟨w, d, hrest, _hwne, hw, hdne, hd⟩ := matchNameId_decomp rest hm
      exact efm_shape e [] w d (by rw [heq, hrest]; rfl) (by decide)
        hw hdne hd
    · exact absurd hm (by simp)
  · have hm' : matchCustomEmoji e = false := eq_false_of_ne_true hm
    constructor
    · unfold parse_label
      rw [if_neg hm]
      rfl
    · intro _
      unfold parse_label
      rw [if_neg hm]

theorem C8_amended_label_parsing_witness :
    (parse_label "<a:x:yz>").isSome = true ∧
    parse_label "<a:x:yz>" = some ⟨"<a:x:yz>", none, false⟩ :=
  ⟨(C8_amended_label_parsing "<a:x:yz>").1,
   (C8_amended_label_parsing "<a:x:yz>").2 (by decide)⟩

end PollBot
